import Mathlib

/-!
Verification development for the Lunarr agent-broker registry core
(`agent-broker/internal/store` and `agent-broker/internal/registry`).

The Go source is shallowly embedded: maps become association lists (the
list order plays the role of Go's unspecified map-iteration order),
`float32` values become exact rationals, `float64` arithmetic becomes
exact real arithmetic, `time.Time` becomes an integer timestamp, and
fallible operations return `Except`.  Store mutations are made explicit
by returning the post-state next to the result; an error result is
always paired with the unchanged pre-state, matching the Go code's
early returns.
-/

/-- One skill record of an A2A agent card (`a2a.AgentSkill`); only the
fields the registry core reads are carried. -/
structure AgentSkill where
  id : String
  name : String
  description : String
deriving DecidableEq

/-- An A2A agent card (`a2a.AgentCard`); only the fields the registry
core reads are carried. -/
structure AgentCard where
  name : String
  description : String
  url : String
  version : String
  skills : List AgentSkill
deriving DecidableEq

/-- `store.RegisteredAgent`.  Its fields are taken from the uses in the
store and registry packages: `ID`, `Card`, `Tags`, `Embedding`
(`[]float32`, modelled as exact rationals), `CreatedAt`/`UpdatedAt`
(`time.Time`, modelled as an integer timestamp; `t1.After t2` is
`t2 < t1`). -/
structure RegisteredAgent where
  id : String
  card : AgentCard
  tags : List String
  embedding : List ℚ
  createdAt : ℤ
  updatedAt : ℤ
deriving DecidableEq

/-- `store.AgentFilter`.  `Offset`/`Limit` are Go `int`s that the
registry clamps to be non-negative before they reach the store; they
are modelled as `Nat`. -/
structure AgentFilter where
  offset : Nat
  limit : Nat
  tags : List String
  skills : List String
  query : String
deriving DecidableEq

/-- `store.AgentListResult`. -/
structure AgentListResult where
  agents : List RegisteredAgent
  total : Nat
deriving DecidableEq

/-- `store.ScoredAgent`; the `float32` score is modelled as a real. -/
structure ScoredAgent where
  agent : RegisteredAgent
  score : ℝ

/-- `store.SearchResult`. -/
structure SearchResult where
  agents : List ScoredAgent

/-- The two sentinel store errors of `store/store.go`. -/
inductive StoreErr where
  | notFound
  | alreadyExists
deriving DecidableEq

/-- The in-memory store state: the contents of `MemoryStore.agents`.
The list order stands for Go's (unspecified) map iteration order. -/
abbrev StoreState := List RegisteredAgent

/-- Go's `strings.Contains(s, sub)`: `sub` occurs as a contiguous
substring of `s` (compared at character granularity). -/
def goContains (s sub : String) : Bool :=
  decide (sub.data <:+: s.data)

/-- `matchesFilter` from `store/memory.go`: each filter dimension is
checked in turn with an early `false`; an empty dimension is skipped. -/
def matchesFilter (a : RegisteredAgent) (f : AgentFilter) : Bool :=
  if f.tags ≠ [] ∧ ¬ (f.tags.any fun t => a.tags.any fun tag => tag == t) then
    false
  else if f.skills ≠ [] ∧
      ¬ (f.skills.any fun sid => a.card.skills.any fun sk => sk.id == sid) then
    false
  else if f.query ≠ "" ∧
      ¬ (goContains a.card.name.toLower f.query.toLower ||
         goContains a.card.description.toLower f.query.toLower) then
    false
  else
    true

/-- Model of Go's `sort.Slice` comparator insertion: place `x` before
the first element `y` with `lt x y`; otherwise keep walking.  Together
with `sortSlice` this realizes one comparator-consistent permutation,
which is all `sort.Slice` (an unstable sort) guarantees. -/
def insertDesc (lt : α → α → Prop) [DecidableRel lt] (x : α) : List α → List α
  | [] => [x]
  | y :: ys => if lt x y then x :: y :: ys else y :: insertDesc lt x ys

/-- Model of Go's `sort.Slice` with comparator `lt`. -/
def sortSlice (lt : α → α → Prop) [DecidableRel lt] : List α → List α
  | [] => []
  | x :: xs => insertDesc lt x (sortSlice lt xs)

/-- `MemoryStore.ListAgents`: filter, sort by `CreatedAt` descending
(the Go comparator is `filtered[i].CreatedAt.After(filtered[j].CreatedAt)`),
then slice `[start:end]` with `start = min(offset, len)` and
`end = min(start+limit, len)`; `Total` is the match count before
pagination. -/
def ListAgents (s : StoreState) (f : AgentFilter) : AgentListResult :=
  let filtered := s.filter fun a => matchesFilter a f
  let sorted := sortSlice (fun x y : RegisteredAgent => y.createdAt < x.createdAt) filtered
  let total := sorted.length
  let start := min f.offset sorted.length
  let stop := min (start + f.limit) sorted.length
  { agents := (sorted.drop start).take (stop - start), total := total }

/-! ### Generic facts about the `sort.Slice` model -/

theorem mem_insertDesc (lt : α → α → Prop) [DecidableRel lt] (x a : α) (l : List α) :
    a ∈ insertDesc lt x l ↔ a = x ∨ a ∈ l := by
  induction l with
  | nil => simp [insertDesc]
  | cons y ys ih =>
    by_cases h : lt x y
    · simp only [insertDesc, if_pos h, List.mem_cons]
    · simp only [insertDesc, if_neg h, List.mem_cons, ih]
      tauto

theorem insertDesc_perm (lt : α → α → Prop) [DecidableRel lt] (x : α) (l : List α) :
    List.Perm (insertDesc lt x l) (x :: l) := by
  induction l with
  | nil => simp [insertDesc]
  | cons y ys ih =>
    by_cases h : lt x y
    · simp [insertDesc, h]
    · simp only [insertDesc, if_neg h]
      exact (ih.cons y).trans (List.Perm.swap x y ys)

theorem sortSlice_perm (lt : α → α → Prop) [DecidableRel lt] (l : List α) :
    List.Perm (sortSlice lt l) l := by
  induction l with
  | nil => simp [sortSlice]
  | cons x xs ih =>
    exact (insertDesc_perm lt x (sortSlice lt xs)).trans (ih.cons x)

theorem sortSlice_length (lt : α → α → Prop) [DecidableRel lt] (l : List α) :
    (sortSlice lt l).length = l.length :=
  (sortSlice_perm lt l).length_eq

theorem mem_sortSlice (lt : α → α → Prop) [DecidableRel lt] (a : α) (l : List α) :
    a ∈ sortSlice lt l ↔ a ∈ l :=
  (sortSlice_perm lt l).mem_iff

theorem insertDesc_pairwise {β : Type} [LinearOrder β] (k : α → β) (x : α) (l : List α)
    (h : l.Pairwise fun a b => k b ≤ k a) :
    (insertDesc (fun a b => k b < k a) x l).Pairwise fun a b => k b ≤ k a := by
  induction l with
  | nil => simp [insertDesc]
  | cons y ys ih =>
    rw [List.pairwise_cons] at h
    by_cases hxy : k y < k x
    · simp only [insertDesc, if_pos hxy]
      refine List.pairwise_cons.mpr ⟨?_, List.pairwise_cons.mpr ⟨h.1, h.2⟩⟩
      intro b hb
      rcases List.mem_cons.mp hb with rfl | hb
      · exact le_of_lt hxy
      · exact (h.1 b hb).trans (le_of_lt hxy)
    · simp only [insertDesc, if_neg hxy]
      refine List.pairwise_cons.mpr ⟨?_, ih h.2⟩
      intro b hb
      rcases (mem_insertDesc _ x b ys).mp hb with rfl | hb
      · exact le_of_not_lt hxy
      · exact h.1 b hb

theorem sortSlice_pairwise {β : Type} [LinearOrder β] (k : α → β) (l : List α) :
    (sortSlice (fun a b => k b < k a) l).Pairwise fun a b => k b ≤ k a := by
  induction l with
  | nil => simp [sortSlice]
  | cons x xs ih =>
    exact insertDesc_pairwise k x _ ih

/-! ### Cosine similarity and vector search (`store/memory.go`) -/

/-- The dot-product accumulator of `cosineSimilarity`: the loop walks
the indices of `a` and reads `b[i]`, which under the length guard is
exactly a zip; `float64` arithmetic is modelled as exact reals. -/
def dotProduct (a b : List ℚ) : ℝ :=
  (List.zipWith (fun x y => (x : ℝ) * (y : ℝ)) a b).sum

/-- The squared-norm accumulator of `cosineSimilarity` (`normA`/`normB`). -/
def normSq (a : List ℚ) : ℝ :=
  (a.map fun x => (x : ℝ) * (x : ℝ)).sum

/-- `cosineSimilarity` from `store/memory.go`: returns 0 on length
mismatch or empty input, 0 when either norm is zero, and otherwise
`dot / (sqrt normA * sqrt normB)`. -/
noncomputable def cosineSimilarity (a b : List ℚ) : ℝ :=
  if a.length ≠ b.length ∨ a.length = 0 then 0
  else if normSq a = 0 ∨ normSq b = 0 then 0
  else dotProduct a b / (Real.sqrt (normSq a) * Real.sqrt (normSq b))

/-- The scored candidate list built by `MemoryStore.SearchAgents`
before sorting: agents failing the filter or having an empty embedding
are skipped by the loop's two `continue`s. -/
noncomputable def searchScored (s : StoreState) (query : List ℚ) (f : AgentFilter) : List ScoredAgent :=
  (s.filter fun a => matchesFilter a f && !a.embedding.isEmpty).map
    fun a => ⟨a, cosineSimilarity query a.embedding⟩

/-- `MemoryStore.SearchAgents`: score, sort by score descending (the
Go comparator is `scored[i].Score > scored[j].Score`), and truncate to
`limit` when `limit > 0` and more than `limit` results exist. -/
noncomputable def SearchAgents (s : StoreState) (query : List ℚ) (limit : Nat)
    (f : AgentFilter) : SearchResult :=
  let sorted := sortSlice (fun x y : ScoredAgent => y.score < x.score) (searchScored s query f)
  { agents := if 0 < limit ∧ limit < sorted.length then sorted.take limit else sorted }

/-! ### C1: list ordering -/

/-- The ordering C1 claims for `ListAgents` output: strictly
descending `created_at`, ties broken by ascending `id`.  String order
is Lean's `String` order, i.e. lexicographic on the character
sequence, written on `.data` so it is kernel-decidable. -/
def listOrderClaim (l : List RegisteredAgent) : Prop :=
  l.Pairwise fun x y =>
    y.createdAt < x.createdAt ∨ (y.createdAt = x.createdAt ∧ x.id.data < y.id.data)

/-- A throwaway but validation-passing card shared by the concrete
store states below. -/
def cardX : AgentCard :=
  { name := "n", description := "", url := "u", version := "1",
    skills := [{ id := "s", name := "sn", description := "" }] }

/-- Concrete agent with id `a`; same `createdAt` as `agB`. -/
def agA : RegisteredAgent :=
  { id := "a", card := cardX, tags := [], embedding := [1], createdAt := 0, updatedAt := 0 }

/-- Concrete agent with id `b`; same `createdAt` as `agA`. -/
def agB : RegisteredAgent :=
  { id := "b", card := cardX, tags := [], embedding := [1], createdAt := 0, updatedAt := 0 }

/-- A filter that matches everything and paginates nothing away. -/
def f0 : AgentFilter := { offset := 0, limit := 2, tags := [], skills := [], query := "" }

/-- Claim C1 (counterexample): with two agents sharing `created_at`,
`ListAgents` can return them with ids in descending order — the code
sorts only by `created_at`, so no id tie-break exists. -/
theorem listAgents_claimed_order_fails :
    ¬ listOrderClaim (ListAgents [agA, agB] f0).agents := by
  unfold listOrderClaim
  decide

/-- Claim C1 (amended): for every store state and filter, the sequence
returned by `ListAgents` is sorted non-increasing in `created_at`; the
order of agents with equal `created_at` is unspecified (no id
tie-break). -/
theorem listAgents_sorted_createdAt (s : StoreState) (f : AgentFilter) :
    (ListAgents s f).agents.Pairwise fun x y => y.createdAt ≤ x.createdAt := by
  have hp := sortSlice_pairwise (fun a : RegisteredAgent => a.createdAt)
    (s.filter fun a => matchesFilter a f)
  have hsub :
      (ListAgents s f).agents.Sublist
        (sortSlice (fun x y : RegisteredAgent => y.createdAt < x.createdAt)
          (s.filter fun a => matchesFilter a f)) := by
    simp only [ListAgents]
    exact (List.take_sublist _ _).trans (List.drop_sublist _ _)
  exact hp.sublist hsub

/-! ### C2: search ordering, truncation, exclusion -/

/-- The ordering C2 claims for `SearchAgents` output: strictly
descending score, ties broken by ascending `id` (string order written
on `.data`, see `listOrderClaim`). -/
def searchOrderClaim (l : List ScoredAgent) : Prop :=
  l.Pairwise fun x y =>
    y.score < x.score ∨ (y.score = x.score ∧ x.agent.id.data < y.agent.id.data)

/-- Claim C2 (counterexample): two agents with identical embeddings tie
on score, and `SearchAgents` can return them with ids descending — the
Go comparator uses only the score, so no id tie-break exists. -/
theorem searchAgents_claimed_order_fails :
    ¬ searchOrderClaim (SearchAgents [agA, agB] [1] 5 f0).agents := by
  have h1 : searchScored [agA, agB] [1] f0 =
      [⟨agA, cosineSimilarity [1] [1]⟩, ⟨agB, cosineSimilarity [1] [1]⟩] := rfl
  have hne : ¬ ((⟨agB, cosineSimilarity [1] [1]⟩ : ScoredAgent).score <
      (⟨agA, cosineSimilarity [1] [1]⟩ : ScoredAgent).score) := lt_irrefl _
  have h2 : sortSlice (fun x y : ScoredAgent => y.score < x.score)
      [⟨agA, cosineSimilarity [1] [1]⟩, ⟨agB, cosineSimilarity [1] [1]⟩] =
      [⟨agB, cosineSimilarity [1] [1]⟩, ⟨agA, cosineSimilarity [1] [1]⟩] := by
    simp only [sortSlice, insertDesc, if_neg hne]
  have h3 : (SearchAgents [agA, agB] [1] 5 f0).agents =
      [⟨agB, cosineSimilarity [1] [1]⟩, ⟨agA, cosineSimilarity [1] [1]⟩] := by
    simp only [SearchAgents, h1, h2]
    norm_num
  intro h
  unfold searchOrderClaim at h
  rw [h3, List.pairwise_cons] at h
  rcases h.1 _ (List.mem_cons_self _ _) with hlt | ⟨_, hid⟩
  · exact lt_irrefl _ hlt
  · exact absurd hid (by decide)

/-- Claim C2 (amended): for every store state, query, limit and filter,
`SearchAgents` returns agents sorted non-increasing by score (tie order
unspecified, no id tie-break); when `limit > 0` at most `limit` entries
are returned; and every returned agent has a non-empty embedding. -/
theorem searchAgents_sorted_truncated_nonempty (s : StoreState) (q : List ℚ)
    (limit : Nat) (f : AgentFilter) :
    (SearchAgents s q limit f).agents.Pairwise (fun x y => y.score ≤ x.score) ∧
    (0 < limit → (SearchAgents s q limit f).agents.length ≤ limit) ∧
    (∀ x ∈ (SearchAgents s q limit f).agents, x.agent.embedding ≠ []) := by
  have hp := sortSlice_pairwise (fun x : ScoredAgent => x.score) (searchScored s q f)
  have hsub :
      (SearchAgents s q limit f).agents.Sublist
        (sortSlice (fun x y : ScoredAgent => y.score < x.score) (searchScored s q f)) := by
    simp only [SearchAgents]
    split
    · exact List.take_sublist _ _
    · exact List.Sublist.refl _
  refine ⟨hp.sublist hsub, ?_, ?_⟩
  · intro hpos
    simp only [SearchAgents]
    split
    · simp only [List.length_take]
      exact min_le_left _ _
    · next hcond =>
      push_neg at hcond
      exact hcond hpos
  · intro x hx
    have hmem : x ∈ searchScored s q f :=
      (mem_sortSlice _ x _).mp (hsub.subset hx)
    simp only [searchScored, List.mem_map, List.mem_filter] at hmem
    obtain ⟨a, ⟨-, hcond⟩, rfl⟩ := hmem
    simp only [Bool.and_eq_true, Bool.not_eq_true'] at hcond
    show a.embedding ≠ []
    intro hnil
    rw [hnil] at hcond
    simp at hcond

/-- Witness for `searchAgents_sorted_truncated_nonempty` at a concrete
one-agent store. -/
theorem searchAgents_sorted_truncated_nonempty_witness :
    0 < 5 ∧ (SearchAgents [agA] [1] 5 f0).agents.length ≤ 5 :=
  ⟨by decide, (searchAgents_sorted_truncated_nonempty [agA] [1] 5 f0).2.1 (by decide)⟩

/-! ### C3: filter semantics -/

/-- The filter semantics C3 claims, written from the spec's words:
every nonempty dimension must be satisfied; `tags`/`skills` need one
overlap; `query` is a case-insensitive substring of name or
description. -/
def specMatches (a : RegisteredAgent) (f : AgentFilter) : Prop :=
  (f.tags = [] ∨ ∃ t ∈ a.tags, t ∈ f.tags) ∧
  (f.skills = [] ∨ ∃ sk ∈ a.card.skills, sk.id ∈ f.skills) ∧
  (f.query = "" ∨ goContains a.card.name.toLower f.query.toLower = true ∨
    goContains a.card.description.toLower f.query.toLower = true)

/-- Claim C3: `matchesFilter` holds exactly when each nonempty filter
dimension is satisfied (tags overlap, skill-id overlap, query
substring), and the store's list/search operations consider exactly the
matching agents: `Total` counts them, and every search result matches. -/
theorem matchesFilter_characterization :
    (∀ a f, matchesFilter a f = true ↔ specMatches a f) ∧
    (∀ (s : StoreState) (f : AgentFilter),
      (ListAgents s f).total = (s.filter fun a => matchesFilter a f).length) ∧
    (∀ (s : StoreState) (q : List ℚ) (limit : Nat) (f : AgentFilter),
      ∀ x ∈ (SearchAgents s q limit f).agents, matchesFilter x.agent f = true) := by
  refine ⟨?_, ?_, ?_⟩
  · intro a f
    unfold matchesFilter specMatches
    by_cases h1 : f.tags ≠ [] ∧ ¬ (f.tags.any fun t => a.tags.any fun tag => tag == t)
    · rw [if_pos h1]
      simp only [Bool.false_eq_true, false_iff]
      intro hs
      rcases hs.1 with hnil | ⟨t, ht, htf⟩
      · exact h1.1 hnil
      · exact h1.2 (List.any_eq_true.mpr ⟨t, htf, List.any_eq_true.mpr ⟨t, ht, by simp⟩⟩)
    · rw [if_neg h1]
      by_cases h2 : f.skills ≠ [] ∧
          ¬ (f.skills.any fun sid => a.card.skills.any fun sk => sk.id == sid)
      · rw [if_pos h2]
        simp only [Bool.false_eq_true, false_iff]
        intro hs
        rcases hs.2.1 with hnil | ⟨sk, hsk, hskf⟩
        · exact h2.1 hnil
        · exact h2.2 (List.any_eq_true.mpr ⟨sk.id, hskf,
            List.any_eq_true.mpr ⟨sk, hsk, by simp⟩⟩)
      · rw [if_neg h2]
        by_cases h3 : f.query ≠ "" ∧
            ¬ (goContains a.card.name.toLower f.query.toLower ||
               goContains a.card.description.toLower f.query.toLower)
        · rw [if_pos h3]
          simp only [Bool.false_eq_true, false_iff]
          intro hs
          rcases hs.2.2 with hnil | hq | hq
          · exact h3.1 hnil
          · exact h3.2 (by simp [hq])
          · exact h3.2 (by simp [hq])
        · rw [if_neg h3]
          simp only [true_iff]
          push_neg at h1 h2 h3
          refine ⟨?_, ?_, ?_⟩
          · by_cases ht : f.tags = []
            · exact Or.inl ht
            · obtain ⟨t, htf, ha⟩ := List.any_eq_true.mp (h1 ht)
              obtain ⟨tag, htag, heq⟩ := List.any_eq_true.mp ha
              exact Or.inr ⟨tag, htag, by rwa [show tag = t from by simpa using heq]⟩
          · by_cases hsk : f.skills = []
            · exact Or.inl hsk
            · obtain ⟨sid, hsf, ha⟩ := List.any_eq_true.mp (h2 hsk)
              obtain ⟨sk, hskm, heq⟩ := List.any_eq_true.mp ha
              exact Or.inr ⟨sk, hskm, by rwa [show sk.id = sid from by simpa using heq]⟩
          · by_cases hq : f.query = ""
            · exact Or.inl hq
            · rcases (Bool.or_eq_true _ _) ▸ (h3 hq) with h | h
              · exact Or.inr (Or.inl h)
              · exact Or.inr (Or.inr h)
  · intro s f
    simp only [ListAgents]
    exact sortSlice_length _ _
  · intro s q limit f x hx
    have hsub :
        (SearchAgents s q limit f).agents.Sublist
          (sortSlice (fun x y : ScoredAgent => y.score < x.score) (searchScored s q f)) := by
      simp only [SearchAgents]
      split
      · exact List.take_sublist _ _
      · exact List.Sublist.refl _
    have hmem : x ∈ searchScored s q f :=
      (mem_sortSlice _ x _).mp (hsub.subset hx)
    simp only [searchScored, List.mem_map, List.mem_filter] at hmem
    obtain ⟨a, ⟨-, hcond⟩, rfl⟩ := hmem
    exact (Bool.and_eq_true _ _ ▸ hcond).1

/-- Witness for `matchesFilter_characterization` at a concrete search
result. -/
theorem matchesFilter_characterization_witness : matchesFilter agA f0 = true :=
  matchesFilter_characterization.2.2 [agA] [1] 0 f0 ⟨agA, cosineSimilarity [1] [1]⟩
    (by show _ ∈ [(⟨agA, cosineSimilarity [1] [1]⟩ : ScoredAgent)]
        exact List.mem_cons_self _ _)

/-! ### C10: pagination edge cases at the store layer -/

/-- Claim C10: at the store interface, a filter with `Limit = 0` yields
an empty page with `Total` still the full match count; and an `Offset`
at or beyond the match count also yields an empty page with the correct
`Total` — the `min`-clamped slice bounds can never run out of range. -/
theorem listAgents_pagination_edges (s : StoreState) (f : AgentFilter) :
    (f.limit = 0 →
      (ListAgents s f).agents = [] ∧
      (ListAgents s f).total = (s.filter fun a => matchesFilter a f).length) ∧
    ((s.filter fun a => matchesFilter a f).length ≤ f.offset →
      (ListAgents s f).agents = [] ∧
      (ListAgents s f).total = (s.filter fun a => matchesFilter a f).length) := by
  have hlen : (sortSlice (fun x y : RegisteredAgent => y.createdAt < x.createdAt)
      (s.filter fun a => matchesFilter a f)).length =
      (s.filter fun a => matchesFilter a f).length := sortSlice_length _ _
  constructor
  · intro hlim
    refine ⟨?_, ?_⟩
    · simp only [ListAgents]
      rw [show min (min f.offset (sortSlice (fun x y : RegisteredAgent =>
          y.createdAt < x.createdAt) (s.filter fun a => matchesFilter a f)).length + f.limit)
          (sortSlice (fun x y : RegisteredAgent => y.createdAt < x.createdAt)
            (s.filter fun a => matchesFilter a f)).length -
          min f.offset (sortSlice (fun x y : RegisteredAgent => y.createdAt < x.createdAt)
            (s.filter fun a => matchesFilter a f)).length = 0 from by omega]
      exact List.take_zero _
    · simp only [ListAgents]
      exact hlen
  · intro hoff
    refine ⟨?_, ?_⟩
    · simp only [ListAgents]
      rw [show min f.offset (sortSlice (fun x y : RegisteredAgent =>
          y.createdAt < x.createdAt) (s.filter fun a => matchesFilter a f)).length =
          (sortSlice (fun x y : RegisteredAgent => y.createdAt < x.createdAt)
            (s.filter fun a => matchesFilter a f)).length from by omega]
      rw [List.drop_length]
      exact List.take_nil
    · simp only [ListAgents]
      exact hlen

/-- Witness for `listAgents_pagination_edges`: a one-agent store listed
with `limit = 0` returns no agents but counts the match. -/
theorem listAgents_pagination_edges_witness :
    (ListAgents [agA] { offset := 0, limit := 0, tags := [], skills := [], query := "" }).agents
        = [] ∧
    (ListAgents [agA] { offset := 0, limit := 0, tags := [], skills := [], query := "" }).total
        = ([agA].filter fun a => matchesFilter a
            { offset := 0, limit := 0, tags := [], skills := [], query := "" }).length :=
  (listAgents_pagination_edges [agA] _).1 rfl

/-! ### C7: duplicate creation -/

/-- `MemoryStore.CreateAgent`: reject an existing id, otherwise add the
agent.  The new entry is appended; where it lands in Go's map iteration
order is unspecified anyway.  The returned state is the post-state; on
error it is the untouched pre-state. -/
def CreateAgent (s : StoreState) (a : RegisteredAgent) : Except StoreErr Unit × StoreState :=
  if s.any fun x => x.id == a.id then (.error .alreadyExists, s)
  else (.ok (), s ++ [a])

/-- `MemoryStore.GetAgent`: look the id up. -/
def GetAgent (s : StoreState) (id : String) : Except StoreErr RegisteredAgent :=
  match s.find? fun x => x.id == id with
  | some a => .ok a
  | none => .error .notFound

/-- `MemoryStore.UpdateAgent`: replace the entry under the agent's id,
or report `notFound`. -/
def UpdateAgent (s : StoreState) (a : RegisteredAgent) : Except StoreErr Unit × StoreState :=
  if s.any fun x => x.id == a.id then
    (.ok (), s.map fun x => if x.id == a.id then a else x)
  else (.error .notFound, s)

/-- Claim C7: a second `CreateAgent` under an id that was just created
returns `alreadyExists` and leaves the store exactly as it was after
the first call. -/
theorem createAgent_duplicate_rejected (s : StoreState) (a1 a2 : RegisteredAgent)
    (h1 : (CreateAgent s a1).1 = .ok ()) (hid : a2.id = a1.id) :
    CreateAgent (CreateAgent s a1).2 a2 = (.error .alreadyExists, (CreateAgent s a1).2) := by
  by_cases hex : s.any fun x => x.id == a1.id
  · rw [CreateAgent, if_pos hex] at h1
    exact absurd h1 (by simp)
  · have h2 : (CreateAgent s a1).2 = s ++ [a1] := by rw [CreateAgent, if_neg hex]
    rw [h2, CreateAgent, if_pos]
    rw [List.any_append]
    simp [hid]

/-- Witness for `createAgent_duplicate_rejected`: recreating `agA`
(with `agB`'s id renamed to collide) fails and preserves the store. -/
theorem createAgent_duplicate_rejected_witness :
    (CreateAgent [] agA).1 = .ok () ∧
    CreateAgent (CreateAgent [] agA).2 { agB with id := "a" } =
      (.error .alreadyExists, (CreateAgent [] agA).2) :=
  ⟨rfl, createAgent_duplicate_rejected [] agA { agB with id := "a" } rfl rfl⟩

/-! ### C8: cosine similarity -/

theorem normSq_nonneg (a : List ℚ) : 0 ≤ normSq a := by
  unfold normSq
  apply List.sum_nonneg
  intro x hx
  simp only [List.mem_map] at hx
  obtain ⟨q, -, rfl⟩ := hx
  exact mul_self_nonneg _

/-- Claim C8: `cosineSimilarity` returns 0 on length mismatch, on empty
vectors and on zero norms; otherwise it returns
`dot / (sqrt normA * sqrt normB)` with a provably non-zero divisor.
`float32`/`float64` values are modelled as exact rationals/reals, and
the guarded index loop as a zip, so the precision-cast itself and raw
memory safety are outside the model. -/
theorem cosineSimilarity_spec (a b : List ℚ) :
    (a.length ≠ b.length ∨ a = [] → cosineSimilarity a b = 0) ∧
    (normSq a = 0 ∨ normSq b = 0 → cosineSimilarity a b = 0) ∧
    (a.length = b.length → a ≠ [] → normSq a ≠ 0 → normSq b ≠ 0 →
      cosineSimilarity a b =
        dotProduct a b / (Real.sqrt (normSq a) * Real.sqrt (normSq b)) ∧
      Real.sqrt (normSq a) * Real.sqrt (normSq b) ≠ 0) := by
  refine ⟨?_, ?_, ?_⟩
  · intro h
    unfold cosineSimilarity
    rw [if_pos]
    rcases h with h | h
    · exact Or.inl h
    · exact Or.inr (by simp [h])
  · intro h
    unfold cosineSimilarity
    by_cases hg : a.length ≠ b.length ∨ a.length = 0
    · rw [if_pos hg]
    · rw [if_neg hg, if_pos h]
  · intro hlen hne hA hB
    unfold cosineSimilarity
    have hguard : ¬(a.length ≠ b.length ∨ a.length = 0) := by
      push_neg
      exact ⟨hlen, fun h0 => hne (List.length_eq_zero.mp h0)⟩
    rw [if_neg hguard, if_neg (by simp [hA, hB])]
    refine ⟨rfl, ?_⟩
    have hApos : 0 < Real.sqrt (normSq a) :=
      Real.sqrt_pos.mpr (lt_of_le_of_ne (normSq_nonneg a) (Ne.symm hA))
    have hBpos : 0 < Real.sqrt (normSq b) :=
      Real.sqrt_pos.mpr (lt_of_le_of_ne (normSq_nonneg b) (Ne.symm hB))
    exact ne_of_gt (mul_pos hApos hBpos)

/-- Witness for `cosineSimilarity_spec` on the vectors `[1]`, `[1]`. -/
theorem cosineSimilarity_spec_witness :
    cosineSimilarity [1] [1] =
      dotProduct [1] [1] / (Real.sqrt (normSq [1]) * Real.sqrt (normSq [1])) ∧
    Real.sqrt (normSq [1]) * Real.sqrt (normSq [1]) ≠ 0 :=
  (cosineSimilarity_spec [1] [1]).2.2 rfl (by decide)
    (by norm_num [normSq]) (by norm_num [normSq])

/-! ### Registry (`registry/registry.go`) -/

/-- `embedding.Embedder.Embed`, as the registry consumes it: a batch of
texts to either an error or a batch of vectors. -/
abbrev Embedder := List String → Except String (List (List ℚ))

/-- `registry.RegistryService`: the store is passed explicitly as
state, so only the optional embedder remains. -/
structure RegistryService where
  embedder : Option Embedder

/-- `registry.CreateInput`. -/
structure CreateInput where
  id : String
  card : AgentCard
  tags : List String

/-- `registry.UpdateInput`. -/
structure UpdateInput where
  id : String
  card : AgentCard
  tags : List String

/-- The error kinds a registry operation can surface (spec section 7):
validation, embedding, or a store error passed through. -/
inductive RegError where
  | validation (msg : String)
  | embedding (msg : String)
  | store (e : StoreErr)
deriving DecidableEq

/-- `validateAgentID`: non-empty, at most 64 characters, and matching
`^[a-zA-Z0-9_-]+$` (checked per character; `Char.isAlphanum` is the
ASCII letter-or-digit test, like the regex). -/
def validateAgentID (id : String) : Except String Unit :=
  if id = "" then .error "agent_id is required"
  else if id.length > 64 then .error "agent_id must be at most 64 characters"
  else if ¬ (id.data.all fun c => c.isAlphanum || c == '_' || c == '-') then
    .error "agent_id must match pattern"
  else .ok ()

/-- `ValidateAgentCard`: collect every failure message; the card is
valid iff the list is empty (Go joins the list into one error). -/
def ValidateAgentCard (card : AgentCard) : List String :=
  (if card.name = "" then ["name is required"] else []) ++
  (if card.url = "" then ["url is required"] else []) ++
  (if card.version = "" then ["version is required"] else []) ++
  (if card.skills = [] then ["at least one skill is required"] else []) ++
  (card.skills.enum.flatMap fun p =>
    (if p.2.id = "" then ["skill[" ++ toString p.1 ++ "].id is required"] else []) ++
    (if p.2.name = "" then ["skill[" ++ toString p.1 ++ "].name is required"] else []))

/-- `buildEmbeddingText`: `name`, then `description` if non-empty, then
for each skill its name and (if non-empty) description, joined by
single spaces. -/
def buildEmbeddingText (card : AgentCard) : String :=
  String.intercalate " "
    ([card.name] ++
     (if card.description = "" then [] else [card.description]) ++
     card.skills.flatMap fun sk =>
       [sk.name] ++ (if sk.description = "" then [] else [sk.description]))

/-- The spec's wording of invariant 3 (the refinement target of C4):
the concatenation `name ⧺ description ⧺ (for each skill: name ⧺
description)` joined by single spaces, omitting empty fields. -/
def specEmbeddingText (card : AgentCard) : String :=
  String.intercalate " "
    ((([card.name, card.description] ++
       card.skills.flatMap fun sk => [sk.name, sk.description]).filter
      fun s => s ≠ ""))

/-- The embedding step shared by `Create` and `Update`: no embedder
means a nil vector; otherwise embed the card text, propagate failure,
and take the first vector when any came back (`len(embeddings) > 0`). -/
def embedForCard (svc : RegistryService) (card : AgentCard) : Except String (List ℚ) :=
  match svc.embedder with
  | none => .ok []
  | some e =>
    match e [buildEmbeddingText card] with
    | .error msg => .error msg
    | .ok vs => .ok (vs.headD [])

/-- `RegistryService.Create`: validate id and card, embed, then store;
the state is returned untouched on every error path, mirroring the Go
early returns that precede the single store call. -/
def Registry.Create (svc : RegistryService) (now : ℤ) (s : StoreState)
    (input : CreateInput) : Except RegError RegisteredAgent × StoreState :=
  match validateAgentID input.id with
  | .error msg => (.error (.validation msg), s)
  | .ok _ =>
    if ValidateAgentCard input.card ≠ [] then
      (.error (.validation (String.intercalate ", " (ValidateAgentCard input.card))), s)
    else
      match embedForCard svc input.card with
      | .error msg => (.error (.embedding msg), s)
      | .ok emb =>
        let agent : RegisteredAgent :=
          { id := input.id, card := input.card, tags := input.tags,
            embedding := emb, createdAt := now, updatedAt := now }
        match CreateAgent s agent with
        | (.ok _, s2) => (.ok agent, s2)
        | (.error e, s2) => (.error (.store e), s2)

/-- `RegistryService.Update`: validate the card, load the existing
agent, re-embed from the new card, overwrite card/tags/embedding, bump
`updatedAt` (keeping `createdAt`), then store. -/
def Registry.Update (svc : RegistryService) (now : ℤ) (s : StoreState)
    (input : UpdateInput) : Except RegError RegisteredAgent × StoreState :=
  if ValidateAgentCard input.card ≠ [] then
    (.error (.validation (String.intercalate ", " (ValidateAgentCard input.card))), s)
  else
    match GetAgent s input.id with
    | .error e => (.error (.store e), s)
    | .ok existing =>
      match embedForCard svc input.card with
      | .error msg => (.error (.embedding msg), s)
      | .ok emb =>
        let updated : RegisteredAgent :=
          { existing with
            card := input.card
            tags := input.tags
            embedding := emb
            updatedAt := now }
        match UpdateAgent s updated with
        | (.ok _, s2) => (.ok updated, s2)
        | (.error e, s2) => (.error (.store e), s2)

/-! ### C4: embedding text derivation -/

/-- A card passing `ValidateAgentCard` has a non-empty name and only
skills with non-empty names. -/
theorem validAgentCard_facts (c : AgentCard) (h : ValidateAgentCard c = []) :
    c.name ≠ "" ∧ ∀ sk ∈ c.skills, sk.name ≠ "" := by
  unfold ValidateAgentCard at h
  simp only [List.append_eq_nil] at h
  obtain ⟨⟨⟨⟨h1, -⟩, -⟩, -⟩, h5⟩ := h
  constructor
  · intro hn
    rw [if_pos hn] at h1
    cases h1
  · intro sk hsk hn
    have hpair : ∃ p, p ∈ c.skills.enum ∧ p.2 = sk := by
      rw [← List.enum_map_snd c.skills] at hsk
      obtain ⟨p, hp, hpe⟩ := List.mem_map.mp hsk
      exact ⟨p, hp, hpe⟩
    obtain ⟨p, hp, hpsk⟩ := hpair
    rw [List.flatMap_eq_nil_iff] at h5
    have h5p := h5 p hp
    rw [List.append_eq_nil] at h5p
    rw [hpsk, if_pos hn] at h5p
    cases h5p.2

/-- Filtering the non-empty strings out of a skill's
`[name, description]` pair, for skills with non-empty names, yields
exactly the name plus the optional description. -/
theorem filter_skill_parts (l : List AgentSkill) (h : ∀ sk ∈ l, sk.name ≠ "") :
    ((l.flatMap fun sk => [sk.name, sk.description]).filter fun s => s ≠ "") =
    l.flatMap fun sk =>
      [sk.name] ++ (if sk.description = "" then [] else [sk.description]) := by
  induction l with
  | nil => rfl
  | cons sk rest ih =>
    have hname := h sk (List.mem_cons_self _ _)
    rw [List.flatMap_cons, List.flatMap_cons, List.filter_append,
      ih fun x hx => h x (List.mem_cons_of_mem _ hx)]
    congr 1
    by_cases hdesc : sk.description = "" <;> simp [hname, hdesc]

/-- Claim C4: for every card passing validation, `buildEmbeddingText`
equals the spec's projection (all fields in order, empties omitted,
joined by single spaces); consequently two valid cards with the same
projection get the identical embedding text. -/
theorem buildEmbeddingText_spec :
    (∀ c, ValidateAgentCard c = [] → buildEmbeddingText c = specEmbeddingText c) ∧
    (∀ c1 c2, ValidateAgentCard c1 = [] → ValidateAgentCard c2 = [] →
      specEmbeddingText c1 = specEmbeddingText c2 →
      buildEmbeddingText c1 = buildEmbeddingText c2) := by
  have main : ∀ c, ValidateAgentCard c = [] → buildEmbeddingText c = specEmbeddingText c := by
    intro c h
    obtain ⟨hname, hskills⟩ := validAgentCard_facts c h
    unfold buildEmbeddingText specEmbeddingText
    congr 1
    have hhead : (([c.name, c.description] : List String).filter fun s => s ≠ "") =
        [c.name] ++ (if c.description = "" then [] else [c.description]) := by
      by_cases hdesc : c.description = "" <;> simp [hname, hdesc]
    rw [List.filter_append, hhead, filter_skill_parts c.skills hskills, List.append_assoc]
  exact ⟨main, fun c1 c2 h1 h2 hst => by rw [main c1 h1, main c2 h2, hst]⟩

/-- Witness for `buildEmbeddingText_spec` on the concrete valid card
`cardX`. -/
theorem buildEmbeddingText_spec_witness :
    buildEmbeddingText cardX = specEmbeddingText cardX :=
  buildEmbeddingText_spec.1 cardX (by decide)

/-! ### Dissection lemmas for registry operations -/

theorem embedForCard_some_eq (e : Embedder) (card : AgentCard) :
    embedForCard ⟨some e⟩ card =
      match e [buildEmbeddingText card] with
      | .error msg => .error msg
      | .ok vs => .ok (vs.headD []) := rfl

theorem embedForCard_none_eq (card : AgentCard) :
    embedForCard ⟨none⟩ card = .ok [] := rfl

theorem createAgent_ok (s : StoreState) (x : RegisteredAgent) (r : Unit) (s2 : StoreState)
    (h : CreateAgent s x = (.ok r, s2)) : s2 = s ++ [x] := by
  unfold CreateAgent at h
  split at h
  · exact absurd h (by simp)
  · injection h with h1 h2
    exact h2.symm

theorem updateAgent_ok (s : StoreState) (x : RegisteredAgent) (r : Unit) (s2 : StoreState)
    (h : UpdateAgent s x = (.ok r, s2)) :
    (s.any fun y => y.id == x.id) = true ∧
    s2 = s.map fun y => if y.id == x.id then x else y := by
  unfold UpdateAgent at h
  split at h
  · next hguard =>
    refine ⟨hguard, ?_⟩
    injection h with h1 h2
    exact h2.symm
  · exact absurd h (by simp)

/-- Success dissection of `Registry.Create`: the agent is built from
the input with the embedded vector and appended to the store. -/
theorem registry_create_ok (svc : RegistryService) (now : ℤ) (s : StoreState)
    (input : CreateInput) (a : RegisteredAgent) (s2 : StoreState)
    (h : Registry.Create svc now s input = (.ok a, s2)) :
    ∃ emb, embedForCard svc input.card = .ok emb ∧
      a = { id := input.id, card := input.card, tags := input.tags,
            embedding := emb, createdAt := now, updatedAt := now } ∧
      s2 = s ++ [a] := by
  unfold Registry.Create at h
  split at h
  · exact absurd h (by simp)
  · split at h
    · exact absurd h (by simp)
    · split at h
      · exact absurd h (by simp)
      · next emb hemb =>
        dsimp only at h
        split at h
        · next r s3 hca =>
          injection h with hok hs
          injection hok with hagent
          subst hs
          exact ⟨emb, hemb, hagent.symm, by rw [← hagent]; exact createAgent_ok _ _ _ _ hca⟩
        · exact absurd h (by simp)

/-- Success dissection of `Registry.Update`: the stored agent is the
loaded one with card/tags/embedding overwritten and `updatedAt`
bumped, and it is present in the post-state. -/
theorem registry_update_ok (svc : RegistryService) (now : ℤ) (s : StoreState)
    (input : UpdateInput) (a : RegisteredAgent) (s2 : StoreState)
    (h : Registry.Update svc now s input = (.ok a, s2)) :
    ∃ existing emb, GetAgent s input.id = .ok existing ∧
      embedForCard svc input.card = .ok emb ∧
      a = { existing with
            card := input.card
            tags := input.tags
            embedding := emb
            updatedAt := now } ∧
      a ∈ s2 := by
  unfold Registry.Update at h
  split at h
  · exact absurd h (by simp)
  · split at h
    · exact absurd h (by simp)
    · next existing hget =>
      split at h
      · exact absurd h (by simp)
      · next emb hemb =>
        dsimp only at h
        split at h
        · next r s3 hua =>
          injection h with hok hs
          injection hok with hagent
          subst hs
          obtain ⟨hguard, hmap⟩ := updateAgent_ok _ _ _ _ hua
          refine ⟨existing, emb, hget, hemb, hagent.symm, ?_⟩
          obtain ⟨y, hy, hbeq⟩ := List.any_eq_true.mp hguard
          rw [hmap]
          rw [← hagent]
          exact List.mem_map.mpr ⟨y, hy, by rw [if_pos hbeq]⟩
        · exact absurd h (by simp)

/-! ### C5: embedding dimension invariant -/

/-- Claim C5: with an embedder satisfying its contract (one vector of
length `D` per input text), every successful `Create` persists an agent
whose embedding has length exactly `D`, and every successful `Update`
persists an embedding of length `D` recomputed from the *new* card's
embedding text. -/
theorem registry_embedding_dim (e : Embedder) (D : Nat)
    (hcontract : ∀ ts vs, e ts = .ok vs → vs.length = ts.length ∧ ∀ v ∈ vs, v.length = D) :
    (∀ (now : ℤ) (s : StoreState) (input : CreateInput) (a : RegisteredAgent) (s2 : StoreState),
      Registry.Create ⟨some e⟩ now s input = (.ok a, s2) →
      a.embedding.length = D ∧ a ∈ s2) ∧
    (∀ (now : ℤ) (s : StoreState) (input : UpdateInput) (a : RegisteredAgent) (s2 : StoreState),
      Registry.Update ⟨some e⟩ now s input = (.ok a, s2) →
      a.embedding.length = D ∧ a ∈ s2 ∧
      ∃ vs, e [buildEmbeddingText input.card] = .ok vs ∧ a.embedding = vs.headD []) := by
  have embLen : ∀ card emb, embedForCard ⟨some e⟩ card = .ok emb → emb.length = D ∧
      ∃ vs, e [buildEmbeddingText card] = .ok vs ∧ emb = vs.headD [] := by
    intro card emb hemb
    rw [embedForCard_some_eq] at hemb
    rcases hvs : e [buildEmbeddingText card] with msg | vs
    · rw [hvs] at hemb; cases hemb
    · rw [hvs] at hemb
      injection hemb with hembv
      obtain ⟨hlenvs, hall⟩ := hcontract _ _ hvs
      rcases vs with - | ⟨v, rest⟩
      · simp at hlenvs
      · refine ⟨?_, v :: rest, ?_, hembv.symm⟩
        · rw [← hembv]
          simpa using hall v (List.mem_cons_self _ _)
        · exact rfl
  constructor
  · intro now s input a s2 h
    obtain ⟨emb, hemb, ha, hs2⟩ := registry_create_ok _ _ _ _ _ _ h
    obtain ⟨hlen, -⟩ := embLen _ _ hemb
    refine ⟨by rw [ha]; exact hlen, ?_⟩
    rw [hs2]
    simp
  · intro now s input a s2 h
    obtain ⟨existing, emb, hget, hemb, ha, hmem⟩ := registry_update_ok _ _ _ _ _ _ h
    obtain ⟨hlen, vs, hvs, hembv⟩ := embLen _ _ hemb
    exact ⟨by rw [ha]; exact hlen, hmem, vs, hvs, by rw [ha]; exact hembv⟩

/-- A deterministic stub embedder with dimension 1, for witnesses. -/
def eConst : Embedder := fun ts => .ok (ts.map fun _ => ([0] : List ℚ))

/-- Witness for `registry_embedding_dim`: creating an agent through
`eConst` persists a 1-dimensional embedding. -/
theorem registry_embedding_dim_witness :
    (⟨"x", cardX, [], [0], 5, 5⟩ : RegisteredAgent).embedding.length = 1 ∧
    (⟨"x", cardX, [], [0], 5, 5⟩ : RegisteredAgent) ∈
      [(⟨"x", cardX, [], [0], 5, 5⟩ : RegisteredAgent)] :=
  (registry_embedding_dim eConst 1 (by
      intro ts vs h
      injection h with hv
      subst hv
      refine ⟨by simp, ?_⟩
      intro v hv
      obtain ⟨t, -, rfl⟩ := List.mem_map.mp hv
      rfl)).1
    5 [] ⟨"x", cardX, []⟩ ⟨"x", cardX, [], [0], 5, 5⟩
    [⟨"x", cardX, [], [0], 5, 5⟩] rfl

/-! ### C6: embedder failure leaves the store untouched -/

/-- Claim C6: when the embedder call fails during `Create` (after
validation) or `Update` (after validation and load), the operation
returns an embedding error and the store state is exactly the
pre-state: no store mutation has occurred. -/
theorem registry_embedding_failure (e : Embedder) :
    (∀ (now : ℤ) (s : StoreState) (input : CreateInput) (msg : String),
      validateAgentID input.id = .ok () → ValidateAgentCard input.card = [] →
      e [buildEmbeddingText input.card] = .error msg →
      Registry.Create ⟨some e⟩ now s input = (.error (.embedding msg), s)) ∧
    (∀ (now : ℤ) (s : StoreState) (input : UpdateInput) (msg : String)
        (existing : RegisteredAgent),
      ValidateAgentCard input.card = [] →
      GetAgent s input.id = .ok existing →
      e [buildEmbeddingText input.card] = .error msg →
      Registry.Update ⟨some e⟩ now s input = (.error (.embedding msg), s)) := by
  constructor
  · intro now s input msg hval hcard hfail
    unfold Registry.Create
    rw [hval, if_neg (by simp [hcard]), embedForCard_some_eq, hfail]
  · intro now s input msg existing hcard hget hfail
    unfold Registry.Update
    rw [if_neg (by simp [hcard]), hget, embedForCard_some_eq, hfail]

/-- An always-failing embedder, for witnesses. -/
def eBoom : Embedder := fun _ => .error "boom"

/-- Witness for `registry_embedding_failure` on a concrete create. -/
theorem registry_embedding_failure_witness :
    Registry.Create ⟨some eBoom⟩ 5 [agA] ⟨"x", cardX, []⟩ =
      (.error (.embedding "boom"), [agA]) :=
  (registry_embedding_failure eBoom).1 5 [agA] ⟨"x", cardX, []⟩ "boom" rfl rfl rfl

/-! ### C9: update without embedder clears the embedding -/

/-- Claim C9: with no embedder configured, every successful `Update`
stores the empty embedding — an agent with a previously non-empty
vector loses it. -/
theorem update_without_embedder_clears_embedding (now : ℤ) (s : StoreState)
    (input : UpdateInput) (a : RegisteredAgent) (s2 : StoreState)
    (h : Registry.Update ⟨none⟩ now s input = (.ok a, s2)) :
    a.embedding = [] ∧ a ∈ s2 := by
  obtain ⟨existing, emb, hget, hemb, ha, hmem⟩ := registry_update_ok _ _ _ _ _ _ h
  rw [embedForCard_none_eq] at hemb
  injection hemb with hembv
  exact ⟨by rw [ha]; exact hembv.symm, hmem⟩

/-- Witness for `update_without_embedder_clears_embedding`: `agA` has
embedding `[1]`; updating it without an embedder leaves `[]`. -/
theorem update_without_embedder_clears_embedding_witness :
    (⟨"a", cardX, [], [], 0, 7⟩ : RegisteredAgent).embedding = [] ∧
    (⟨"a", cardX, [], [], 0, 7⟩ : RegisteredAgent) ∈
      [(⟨"a", cardX, [], [], 0, 7⟩ : RegisteredAgent)] :=
  update_without_embedder_clears_embedding 7 [agA] ⟨"a", cardX, []⟩
    ⟨"a", cardX, [], [], 0, 7⟩ [⟨"a", cardX, [], [], 0, 7⟩] rfl
